import Mathlib

/- Verification of the calipr measurement editor core against its source:
   the geometry kernel (src/utils.ts), the polyline arc helpers
   (src/polyline-arc.ts), the cross-shape point model (src/tool-manager.ts)
   and the line tool hold timer callback (src/tools/line-tool.ts).
   JavaScript numbers are modelled as real numbers, in-place mutation as
   state passing, and Math.atan2 via Complex.arg. -/

namespace Calipr

open scoped Classical

/-- Planar point, from src/types.ts. -/
structure Point where
  x : ℝ
  y : ℝ

/-- Polyline segment, from src/types.ts. The source field end is a reserved
word in Lean and is called endp here; the optional bulge field is an Option.
A JavaScript point object is always truthy, so the truthiness test on bulge
in the source is modelled as an Option match. -/
structure Segment where
  endp : Point
  bulge : Option Point

/-- Polyline measurement, from src/types.ts. The optional closed flag is a
Bool, with the undefined (falsy) source state modelled as false. The string
id field is omitted: no claim depends on it. -/
structure Polyline where
  start : Point
  segments : List Segment
  closed : Bool

/-- Measurement variants, from src/types.ts (string id fields omitted). -/
inductive Measurement where
  | polyline (m : Polyline)
  | rectangle (p0 p1 : Point)
  | circle (center : Point) (radiusPx : ℝ)

/-- Euclidean distance, dist from src/utils.ts. -/
noncomputable def dist (a b : Point) : ℝ :=
  Real.sqrt ((b.x - a.x) ^ 2 + (b.y - a.y) ^ 2)

/-- Threshold test pointNear from src/utils.ts. -/
noncomputable def pointNear (p target : Point) (threshold : ℝ) : Prop :=
  dist p target ≤ threshold

/-- Constant POINT_HIT_RADIUS from src/polyline-arc.ts. -/
def POINT_HIT_RADIUS : ℝ := 10

/-- Constant CLOSE_SNAP_RADIUS from src/polyline-arc.ts. -/
def CLOSE_SNAP_RADIUS : ℝ := 24

/-- Points contributed by the segments, in order: for each segment the bulge
point (when present) then the end point. This is the loop body of the
polyline case of getMeasurementPoints (src/tool-manager.ts). -/
def segPoints : List Segment → List Point
  | [] => []
  | seg :: rest =>
    (match seg.bulge with
     | some b => [b, seg.endp]
     | none => [seg.endp]) ++ segPoints rest

/-- getMeasurementPoints from src/tool-manager.ts. -/
def getMeasurementPoints : Measurement → List Point
  | .polyline m => m.start :: segPoints m.segments
  | .rectangle p0 p1 => [p0, p1]
  | .circle center radiusPx => [center, ⟨center.x + radiusPx, center.y⟩]

/-- Loop of the polyline case of setMeasurementPoint (src/tool-manager.ts):
ci is the running point counter, idx the requested index. The source mutates
the matching field and returns immediately, leaving later segments untouched;
this returns the updated segment list. -/
def setSegPoint : List Segment → ℤ → ℤ → Point → List Segment
  | [], _, _, _ => []
  | seg :: rest, ci, idx, p =>
    match seg.bulge with
    | some _ =>
      if ci = idx then { seg with bulge := some p } :: rest
      else if ci + 1 = idx then { seg with endp := p } :: rest
      else seg :: setSegPoint rest (ci + 2) idx p
    | none =>
      if ci = idx then { seg with endp := p } :: rest
      else seg :: setSegPoint rest (ci + 1) idx p

/-- setMeasurementPoint from src/tool-manager.ts. The rectangle case writes
m.points[idx]; for idx outside 0 and 1 the written slot is never read back by
the point model, so it is modelled as leaving both corners unchanged. The
circle case runs two independent if statements, exactly as the source does. -/
noncomputable def setMeasurementPoint (m : Measurement) (idx : ℤ) (p : Point) :
    Measurement :=
  match m with
  | .polyline pl =>
    if idx = 0 then .polyline { pl with start := p }
    else .polyline { pl with segments := setSegPoint pl.segments 1 idx p }
  | .rectangle p0 p1 =>
    if idx = 0 then .rectangle p p1
    else if idx = 1 then .rectangle p0 p
    else .rectangle p0 p1
  | .circle center radiusPx =>
    .circle (if idx = 0 then p else center)
      (if idx = 1 then Real.sqrt ((p.x - center.x) ^ 2 + (p.y - center.y) ^ 2)
       else radiusPx)

/-- Classification of a flattened point index, the return type of
identifyPolylinePoint (src/tool-manager.ts). The end kind is called endk
because end is reserved in Lean. -/
inductive PtKind where
  | start
  | bulge (segIndex : ℕ)
  | endk (segIndex : ℕ)
deriving DecidableEq

/-- Loop of identifyPolylinePoint (src/tool-manager.ts): ci is the running
point counter, si the running segment index. -/
def identifySeg : List Segment → ℤ → ℕ → ℤ → Option PtKind
  | [], _, _, _ => none
  | seg :: rest, ci, si, idx =>
    match seg.bulge with
    | some _ =>
      if ci = idx then some (.bulge si)
      else if ci + 1 = idx then some (.endk si)
      else identifySeg rest (ci + 2) (si + 1) idx
    | none =>
      if ci = idx then some (.endk si)
      else identifySeg rest (ci + 1) (si + 1) idx

/-- identifyPolylinePoint from src/tool-manager.ts. -/
def identifyPolylinePoint (m : Polyline) (idx : ℤ) : Option PtKind :=
  if idx = 0 then some .start
  else identifySeg m.segments 1 0 idx

/-- Deletion of the bulge of segment si, modelling the statement
delete m.segments[si].bulge in removePolylinePoint. The index produced by
identifyPolylinePoint is always in range; out of range this is a no-op. -/
def clearBulge : List Segment → ℕ → List Segment
  | [], _ => []
  | seg :: rest, 0 => { seg with bulge := none } :: rest
  | seg :: rest, n + 1 => seg :: clearBulge rest n

/-- removePolylinePoint from src/tool-manager.ts. In the end case the source
has an if and an else branch that both splice out exactly the segment at the
identified index, embedded here as a single eraseIdx. -/
def removePolylinePoint (m : Polyline) (idx : ℤ) : Polyline :=
  match identifyPolylinePoint m idx with
  | none => m
  | some .start =>
    match m.segments with
    | [] => m
    | seg :: rest => { m with start := seg.endp, segments := rest }
  | some (.bulge si) => { m with segments := clearBulge m.segments si }
  | some (.endk si) => { m with segments := m.segments.eraseIdx si }

/-- Circle record returned by circumscribedCircle (src/utils.ts). -/
structure Circle where
  cx : ℝ
  cy : ℝ
  r : ℝ

/-- Determinant of the perpendicular bisector system, the D local of
circumscribedCircle (src/utils.ts). -/
noncomputable def circumDet (p1 p2 p3 : Point) : ℝ :=
  2 * (p1.x * (p2.y - p3.y) + p2.x * (p3.y - p1.y) + p3.x * (p1.y - p2.y))

/-- circumscribedCircle from src/utils.ts. -/
noncomputable def circumscribedCircle (p1 p2 p3 : Point) : Option Circle :=
  let D := circumDet p1 p2 p3
  if |D| < 1 / 10 ^ 10 then none
  else
    let ux := ((p1.x ^ 2 + p1.y ^ 2) * (p2.y - p3.y) +
        (p2.x ^ 2 + p2.y ^ 2) * (p3.y - p1.y) +
        (p3.x ^ 2 + p3.y ^ 2) * (p1.y - p2.y)) / D
    let uy := ((p1.x ^ 2 + p1.y ^ 2) * (p3.x - p2.x) +
        (p2.x ^ 2 + p2.y ^ 2) * (p1.x - p3.x) +
        (p3.x ^ 2 + p3.y ^ 2) * (p2.x - p1.x)) / D
    some ⟨ux, uy, Real.sqrt ((p1.x - ux) ^ 2 + (p1.y - uy) ^ 2)⟩

/-- Math.atan2 y x, modelled as the argument of the complex number x + y i.
Both have range from minus pi exclusive to pi inclusive, and both send the
origin to zero. -/
noncomputable def atan2 (y x : ℝ) : ℝ := Complex.arg ⟨x, y⟩

/-- Rounding toward zero on the quotient, the behavior of the JavaScript
remainder operator. -/
noncomputable def truncR (x : ℝ) : ℤ := if 0 ≤ x then ⌊x⌋ else ⌈x⌉

/-- JavaScript remainder a % b: the sign follows the dividend. -/
noncomputable def jsMod (a b : ℝ) : ℝ := a - b * truncR (a / b)

/-- normalizeAngle from src/utils.ts. -/
noncomputable def normalizeAngle (a : ℝ) : ℝ :=
  let a2 := jsMod a (2 * Real.pi)
  if a2 < 0 then a2 + 2 * Real.pi else a2

/-- angleSweepThrough from src/utils.ts. -/
noncomputable def angleSweepThrough (a1 a2 a3 : ℝ) : ℝ :=
  let d2 := normalizeAngle (a2 - a1)
  let d3 := normalizeAngle (a3 - a1)
  if d2 < d3 then d3 else d3 - 2 * Real.pi

/-- computeTangentArcBulge from src/utils.ts. -/
noncomputable def computeTangentArcBulge (segStart segEnd tangentDir : Point) :
    Option Point :=
  let nx := -tangentDir.y
  let ny := tangentDir.x
  let dx := segStart.x - segEnd.x
  let dy := segStart.y - segEnd.y
  if dx * dx + dy * dy < 1 / 10 ^ 6 then none
  else
    let denom := 2 * (nx * dx + ny * dy)
    if |denom| < 1 / 10 ^ 6 then none
    else
      let t := -(dx * dx + dy * dy) / denom
      let cx := segStart.x + t * nx
      let cy := segStart.y + t * ny
      let r := |t|
      let a1 := atan2 (segStart.y - cy) (segStart.x - cx)
      let a3 := atan2 (segEnd.y - cy) (segEnd.x - cx)
      let aMid :=
        if 0 < t then
          let sweep0 := normalizeAngle (a3 - a1)
          let sweep := if sweep0 = 0 then 2 * Real.pi else sweep0
          a1 + sweep / 2
        else
          let sweep0 := normalizeAngle (a1 - a3)
          let sweep := if sweep0 = 0 then 2 * Real.pi else sweep0
          a1 - sweep / 2
      some ⟨cx + r * Real.cos aMid, cy + r * Real.sin aMid⟩

/-- getPrevTangent from src/polyline-arc.ts. The source asserts that the
previous segment exists; callers only pass indices up to segments.length, and
the out-of-range case (a crash in the source) returns the default direction
here, with the theorems restricted to in-range indices. -/
noncomputable def getPrevTangent (m : Polyline) (segIdx : ℕ) : Point :=
  if segIdx = 0 then ⟨1, 0⟩
  else
    match m.segments[segIdx - 1]? with
    | none => ⟨1, 0⟩
    | some prevSeg =>
      let prevStart :=
        if 2 ≤ segIdx then
          match m.segments[segIdx - 2]? with
          | some s => s.endp
          | none => m.start
        else m.start
      let d : ℝ × ℝ :=
        match prevSeg.bulge with
        | some bp =>
          match circumscribedCircle prevStart bp prevSeg.endp with
          | some circ =>
            let rx := prevSeg.endp.x - circ.cx
            let ry := prevSeg.endp.y - circ.cy
            let a1 := atan2 (prevStart.y - circ.cy) (prevStart.x - circ.cx)
            let a2 := atan2 (bp.y - circ.cy) (bp.x - circ.cx)
            let a3 := atan2 (prevSeg.endp.y - circ.cy) (prevSeg.endp.x - circ.cx)
            let sweep := angleSweepThrough a1 a2 a3
            if 0 ≤ sweep then (-ry, rx) else (ry, -rx)
          | none => (prevSeg.endp.x - prevStart.x, prevSeg.endp.y - prevStart.y)
        | none => (prevSeg.endp.x - prevStart.x, prevSeg.endp.y - prevStart.y)
      let len := Real.sqrt (d.1 * d.1 + d.2 * d.2)
      if len < 1 / 10 ^ 3 then ⟨1, 0⟩ else ⟨d.1 / len, d.2 / len⟩

/-- ArcHoldResult from src/polyline-arc.ts. -/
structure ArcHoldResult where
  addNewSegment : Bool
  newSegmentEnd : Option Point

/-- computeArcHoldAction from src/polyline-arc.ts. -/
noncomputable def computeArcHoldAction (m : Polyline) (mousePos : Point) :
    ArcHoldResult :=
  match m.segments.getLast? with
  | none => ⟨false, none⟩
  | some lastSeg =>
    let prevEnd :=
      if 2 ≤ m.segments.length then
        match m.segments[m.segments.length - 2]? with
        | some s => s.endp
        | none => m.start
      else m.start
    if POINT_HIT_RADIUS < dist prevEnd lastSeg.endp then ⟨true, some mousePos⟩
    else ⟨false, none⟩

/-- State touched by the hold timer callback registered in LineTool.onClick
(src/tools/line-tool.ts): the active polyline segment list and the
isHoldingForArc and arcIsNewSegment flags. -/
structure ArcTimerState where
  segments : List Segment
  isHoldingForArc : Bool
  arcIsNewSegment : Bool

/-- Hold timer callback of the non-closing branch of LineTool.onClick
(src/tools/line-tool.ts): it sets isHoldingForArc, then, unless a closing
segment is pending, runs computeArcHoldAction and appends the fresh segment
when requested, marking it as a new segment. -/
noncomputable def arcTimerFire (m : Polyline) (isClosingSegment : Bool)
    (mousePos : Point) (arcIsNewSegment : Bool) : ArcTimerState :=
  if isClosingSegment = true then ⟨m.segments, true, arcIsNewSegment⟩
  else
    let action := computeArcHoldAction m mousePos
    if action.addNewSegment = true then
      match action.newSegmentEnd with
      | some e => ⟨m.segments ++ [⟨e, none⟩], true, true⟩
      | none => ⟨m.segments, true, arcIsNewSegment⟩
    else ⟨m.segments, true, arcIsNewSegment⟩

/-- ArcReleaseResult from src/polyline-arc.ts. -/
structure ArcReleaseResult where
  closed : Bool
  removedDegenerate : Bool

/-- finalizeArc from src/polyline-arc.ts, returning the updated polyline
together with the release result (the source mutates the polyline). -/
noncomputable def finalizeArc (m : Polyline) (shiftHeld wasNewSegment : Bool) :
    Polyline × ArcReleaseResult :=
  match m.segments.getLast? with
  | none => (m, ⟨false, false⟩)
  | some lastSeg =>
    if 2 ≤ m.segments.length ∧ shiftHeld = false ∧
        pointNear lastSeg.endp m.start CLOSE_SNAP_RADIUS then
      ({ m with
          segments := m.segments.dropLast ++ [{ lastSeg with endp := m.start }]
          closed := true },
        ⟨true, false⟩)
    else if wasNewSegment = true ∧ 2 ≤ m.segments.length ∧
        (match m.segments[m.segments.length - 2]? with
         | some prevSeg => dist prevSeg.endp lastSeg.endp < 2
         | none => False) then
      ({ m with segments := m.segments.dropLast }, ⟨false, true⟩)
    else (m, ⟨false, false⟩)

/-- Closed polyline in the explicit-close shape used by the repository tests:
a triangle whose closing segment is an arc ending exactly at start. -/
def closedArcTriangle : Polyline :=
  { start := ⟨0, 0⟩
    segments :=
      [ ⟨⟨100, 0⟩, none⟩
      , ⟨⟨50, 80⟩, none⟩
      , ⟨⟨0, 0⟩, some ⟨10, 40⟩⟩ ]
    closed := true }

/-- Open polyline with one arc segment and one straight segment, used as a
concrete input by several witnesses. -/
def pZig : Polyline :=
  { start := ⟨0, 0⟩
    segments := [⟨⟨100, 0⟩, some ⟨50, 25⟩⟩, ⟨⟨200, 0⟩, none⟩]
    closed := false }

/-- Open polyline with a single straight segment ending within the close snap
radius of start. -/
def pSingleNear : Polyline :=
  { start := ⟨0, 0⟩
    segments := [⟨⟨5, 0⟩, none⟩]
    closed := false }

/-- Open polyline with three straight segments, the last ending at (5,5),
within the close snap radius of start. -/
def pTriNear : Polyline :=
  { start := ⟨0, 0⟩
    segments := [⟨⟨100, 0⟩, none⟩, ⟨⟨100, 100⟩, none⟩, ⟨⟨5, 5⟩, none⟩]
    closed := false }

/-- Open polyline with a single long straight segment. -/
def pOneLong : Polyline :=
  { start := ⟨0, 0⟩
    segments := [⟨⟨100, 0⟩, none⟩]
    closed := false }

/- ======================================================================
   Theorems
   ====================================================================== -/

/-- C1: evaluation of the code at the failing input. The source
setMeasurementPoint moves only start on index 0, so on the explicit-close
shape the closing segment still ends at the old start (0,0) instead of
tracking the new start (5,5), contrary to the claim (and to the repository
test suite, which demands that the closing segment end follow start). The
implicit-close half of the claim does hold; the explicit-close half is what
the code gets wrong. -/
theorem C1_explicit_close_not_tracked :
    setMeasurementPoint (.polyline closedArcTriangle) 0 ⟨5, 5⟩ =
      .polyline
        { start := ⟨5, 5⟩
          segments :=
            [ ⟨⟨100, 0⟩, none⟩
            , ⟨⟨50, 80⟩, none⟩
            , ⟨⟨0, 0⟩, some ⟨10, 40⟩⟩ ]
          closed := true } := rfl

/-- C2: evaluation of the code at the failing input. On the explicit-close
shape the flattened list returned by getMeasurementPoints keeps the final
point that duplicates start (five entries, the last equal to start) instead
of suppressing it as the claim (and the repository test suite, which expects
four points) states. -/
theorem C2_duplicate_not_suppressed :
    getMeasurementPoints (.polyline closedArcTriangle) =
        [⟨0, 0⟩, ⟨100, 0⟩, ⟨50, 80⟩, ⟨10, 40⟩, ⟨0, 0⟩] ∧
      (getMeasurementPoints (.polyline closedArcTriangle)).getLast? =
        some closedArcTriangle.start :=
  ⟨rfl, rfl⟩

/-- Writing a slot at or after the running counter rewrites exactly that
position of the flattened segment point list. -/
theorem segPoints_setSegPoint (segs : List Segment) (ci idx : ℤ) (p : Point)
    (h : ci ≤ idx) :
    segPoints (setSegPoint segs ci idx p) =
      (segPoints segs).set (idx - ci).toNat p := by
  induction segs generalizing ci with
  | nil => rfl
  | cons seg rest ih =>
    cases hb : seg.bulge with
    | some b =>
      by_cases h0 : ci = idx
      · subst h0
        simp [setSegPoint, segPoints, hb]
      · by_cases h1 : ci + 1 = idx
        · have ht : (idx - ci).toNat = 1 := by omega
          simp [setSegPoint, segPoints, hb, h0, h1, ht]
        · have h2 : ci + 2 ≤ idx := by omega
          have ht : (idx - ci).toNat = (idx - (ci + 2)).toNat + 1 + 1 := by omega
          simp [setSegPoint, segPoints, hb, h0, h1, ih (ci + 2) h2, ht]
    | none =>
      by_cases h0 : ci = idx
      · subst h0
        simp [setSegPoint, segPoints, hb]
      · have h2 : ci + 1 ≤ idx := by omega
        have ht : (idx - ci).toNat = (idx - (ci + 1)).toNat + 1 := by omega
        simp [setSegPoint, segPoints, hb, h0, ih (ci + 1) h2, ht]

/-- Out-of-range write: when idx is below the running counter or at or past
the remaining slot count, setSegPoint returns the list unchanged. -/
theorem setSegPoint_out_of_range (segs : List Segment) (ci idx : ℤ) (p : Point)
    (h : idx < ci ∨ ci + ((segPoints segs).length : ℤ) ≤ idx) :
    setSegPoint segs ci idx p = segs := by
  induction segs generalizing ci with
  | nil => rfl
  | cons seg rest ih =>
    cases hb : seg.bulge with
    | some b =>
      have hlen : (segPoints (seg :: rest)).length = (segPoints rest).length + 2 := by
        simp [segPoints, hb]
      rw [hlen] at h
      push_cast at h
      have h0 : ¬ci = idx := by omega
      have h1 : ¬ci + 1 = idx := by omega
      have h2 : idx < ci + 2 ∨ ci + 2 + ((segPoints rest).length : ℤ) ≤ idx := by omega
      simp [setSegPoint, hb, h0, h1, ih (ci + 2) h2]
    | none =>
      have hlen : (segPoints (seg :: rest)).length = (segPoints rest).length + 1 := by
        simp [segPoints, hb]
      rw [hlen] at h
      push_cast at h
      have h0 : ¬ci = idx := by omega
      have h2 : idx < ci + 1 ∨ ci + 1 + ((segPoints rest).length : ℤ) ≤ idx := by omega
      simp [setSegPoint, hb, h0, ih (ci + 1) h2]

/-- Out-of-range lookup: when idx is below the running counter or at or past
the remaining slot count, identifySeg finds nothing. -/
theorem identifySeg_out_of_range (segs : List Segment) (ci : ℤ) (si : ℕ) (idx : ℤ)
    (h : idx < ci ∨ ci + ((segPoints segs).length : ℤ) ≤ idx) :
    identifySeg segs ci si idx = none := by
  induction segs generalizing ci si with
  | nil => rfl
  | cons seg rest ih =>
    cases hb : seg.bulge with
    | some b =>
      have hlen : (segPoints (seg :: rest)).length = (segPoints rest).length + 2 := by
        simp [segPoints, hb]
      rw [hlen] at h
      push_cast at h
      have h0 : ¬ci = idx := by omega
      have h1 : ¬ci + 1 = idx := by omega
      have h2 : idx < ci + 2 ∨ ci + 2 + ((segPoints rest).length : ℤ) ≤ idx := by omega
      simp [identifySeg, hb, h0, h1, ih (ci + 2) (si + 1) h2]
    | none =>
      have hlen : (segPoints (seg :: rest)).length = (segPoints rest).length + 1 := by
        simp [segPoints, hb]
      rw [hlen] at h
      push_cast at h
      have h0 : ¬ci = idx := by omega
      have h2 : idx < ci + 1 ∨ ci + 1 + ((segPoints rest).length : ℤ) ≤ idx := by omega
      simp [identifySeg, hb, h0, ih (ci + 1) (si + 1) h2]

/-- Identification of a bulge index names a real in-range segment that does
carry a bulge. -/
theorem identifySeg_bulge_spec (segs : List Segment) (ci : ℤ) (si : ℕ) (idx : ℤ)
    (k : ℕ) (hk : identifySeg segs ci si idx = some (.bulge k)) :
    si ≤ k ∧ k - si < segs.length ∧
      ∃ s b, segs[k - si]? = some s ∧ s.bulge = some b := by
  induction segs generalizing ci si with
  | nil => simp [identifySeg] at hk
  | cons seg rest ih =>
    cases hb : seg.bulge with
    | some b =>
      by_cases h0 : ci = idx
      · simp [identifySeg, hb, h0] at hk
        subst hk
        exact ⟨le_refl _, by simp, seg, b, by simp, hb⟩
      · by_cases h1 : ci + 1 = idx
        · simp [identifySeg, hb, h0, h1] at hk
        · simp only [identifySeg, hb, if_neg h0, if_neg h1] at hk
          obtain ⟨hle, hlt, s, b2, hget, hbul⟩ := ih (ci + 2) (si + 1) hk
          refine ⟨by omega, by simp; omega, s, b2, ?_, hbul⟩
          have : k - si = (k - (si + 1)) + 1 := by omega
          rw [this, List.getElem?_cons_succ]
          exact hget
    | none =>
      by_cases h0 : ci = idx
      · simp [identifySeg, hb, h0] at hk
      · simp only [identifySeg, hb, if_neg h0] at hk
        obtain ⟨hle, hlt, s, b2, hget, hbul⟩ := ih (ci + 1) (si + 1) hk
        refine ⟨by omega, by simp; omega, s, b2, ?_, hbul⟩
        have : k - si = (k - (si + 1)) + 1 := by omega
        rw [this, List.getElem?_cons_succ]
        exact hget

/-- Identification of an end index names an in-range segment. -/
theorem identifySeg_endk_spec (segs : List Segment) (ci : ℤ) (si : ℕ) (idx : ℤ)
    (k : ℕ) (hk : identifySeg segs ci si idx = some (.endk k)) :
    si ≤ k ∧ k - si < segs.length := by
  induction segs generalizing ci si with
  | nil => simp [identifySeg] at hk
  | cons seg rest ih =>
    cases hb : seg.bulge with
    | some b =>
      by_cases h0 : ci = idx
      · simp [identifySeg, hb, h0] at hk
      · by_cases h1 : ci + 1 = idx
        · simp [identifySeg, hb, h0, h1] at hk
          subst hk
          exact ⟨le_refl _, by simp⟩
        · simp only [identifySeg, hb, if_neg h0, if_neg h1] at hk
          obtain ⟨hle, hlt⟩ := ih (ci + 2) (si + 1) hk
          exact ⟨by omega, by simp; omega⟩
    | none =>
      by_cases h0 : ci = idx
      · simp [identifySeg, hb, h0] at hk
        subst hk
        exact ⟨le_refl _, by simp⟩
      · simp only [identifySeg, hb, if_neg h0] at hk
        obtain ⟨hle, hlt⟩ := ih (ci + 1) (si + 1) hk
        exact ⟨by omega, by simp; omega⟩

/-- Clearing the bulge of an in-range segment rewrites exactly that list
position. -/
theorem clearBulge_eq_set (segs : List Segment) (k : ℕ) (s : Segment)
    (h : segs[k]? = some s) :
    clearBulge segs k = segs.set k { s with bulge := none } := by
  induction segs generalizing k with
  | nil => simp at h
  | cons seg rest ih =>
    cases k with
    | zero =>
      simp only [List.getElem?_cons_zero, Option.some.injEq] at h
      subst h
      rfl
    | succ n =>
      rw [List.getElem?_cons_succ] at h
      simp [clearBulge, ih n h]

/-- Clearing a bulge never changes the segment count. -/
theorem clearBulge_length (segs : List Segment) (k : ℕ) :
    (clearBulge segs k).length = segs.length := by
  induction segs generalizing k with
  | nil => rfl
  | cons seg rest ih => cases k <;> simp [clearBulge, ih]

/-- C8: behavior of removePolylinePoint by identified index kind. A bulge
index clears exactly that bulge and keeps the segment count; index zero
(identified as start) drops segment 0 and promotes its end to the new start;
an end index erases exactly that in-range segment, shrinking the count by
one; erasing the end of a sole remaining segment leaves zero segments. -/
theorem C8_removePoint (m : Polyline) (idx : ℤ) :
    (∀ si, identifyPolylinePoint m idx = some (.bulge si) →
      ∃ s, m.segments[si]? = some s ∧
        removePolylinePoint m idx =
          { m with segments := m.segments.set si { s with bulge := none } } ∧
        (removePolylinePoint m idx).segments.length = m.segments.length) ∧
    (identifyPolylinePoint m idx = some .start →
      ∀ s rest, m.segments = s :: rest →
        removePolylinePoint m idx = { m with start := s.endp, segments := rest }) ∧
    (∀ si, identifyPolylinePoint m idx = some (.endk si) →
      removePolylinePoint m idx = { m with segments := m.segments.eraseIdx si } ∧
      si < m.segments.length ∧
      (removePolylinePoint m idx).segments.length = m.segments.length - 1) ∧
    (∀ s, m.segments = [s] → identifyPolylinePoint m idx = some (.endk 0) →
      (removePolylinePoint m idx).segments = []) := by
  refine ⟨?_, ?_, ?_, ?_⟩
  · intro si hid
    have hid2 : identifySeg m.segments 1 0 idx = some (.bulge si) := by
      by_cases hz : idx = 0
      · simp [identifyPolylinePoint, hz] at hid
      · simpa [identifyPolylinePoint, hz] using hid
    obtain ⟨-, hlt, s, b, hget, -⟩ := identifySeg_bulge_spec _ _ _ _ _ hid2
    rw [Nat.sub_zero] at hget
    refine ⟨s, hget, ?_, ?_⟩
    · simp [removePolylinePoint, hid, clearBulge_eq_set m.segments si s hget]
    · simp [removePolylinePoint, hid, clearBulge_length]
  · intro hid s rest hseg
    simp [removePolylinePoint, hid, hseg]
  · intro si hid
    have hid2 : identifySeg m.segments 1 0 idx = some (.endk si) := by
      by_cases hz : idx = 0
      · simp [identifyPolylinePoint, hz] at hid
      · simpa [identifyPolylinePoint, hz] using hid
    obtain ⟨-, hlt⟩ := identifySeg_endk_spec _ _ _ _ _ hid2
    rw [Nat.sub_zero] at hlt
    refine ⟨by simp [removePolylinePoint, hid], hlt, ?_⟩
    simp only [removePolylinePoint, hid]
    have := List.length_eraseIdx_add_one hlt
    omega
  · intro s hseg hid
    have h3 : removePolylinePoint m idx = { m with segments := m.segments.eraseIdx 0 } := by
      simp [removePolylinePoint, hid]
    rw [h3, hseg]
    rfl

/-- C8 witness: on the concrete two-segment polyline, index 1 identifies the
bulge of segment 0 and removal clears exactly that bulge, via C8_removePoint
at that input. -/
theorem C8_witness :
    identifyPolylinePoint pZig 1 = some (.bulge 0) ∧
      ∃ s, pZig.segments[0]? = some s ∧
        removePolylinePoint pZig 1 =
          { pZig with segments := pZig.segments.set 0 { s with bulge := none } } ∧
        (removePolylinePoint pZig 1).segments.length = pZig.segments.length :=
  ⟨rfl, (C8_removePoint pZig 1).1 0 rfl⟩

/-- C10: an index that names no flattened control point (negative, or at or
past the flattened length) leaves the polyline untouched under both
setMeasurementPoint and removePolylinePoint. -/
theorem C10_invalid_index_noop (m : Polyline) (idx : ℤ) (p : Point)
    (h : idx < 0 ∨ ((getMeasurementPoints (.polyline m)).length : ℤ) ≤ idx) :
    setMeasurementPoint (.polyline m) idx p = .polyline m ∧
      removePolylinePoint m idx = m := by
  have hlen : (getMeasurementPoints (.polyline m)).length
      = (segPoints m.segments).length + 1 := by
    simp [getMeasurementPoints]
  rw [hlen] at h
  push_cast at h
  have hne : ¬idx = 0 := by omega
  constructor
  · have hset : setSegPoint m.segments 1 idx p = m.segments :=
      setSegPoint_out_of_range m.segments 1 idx p (by omega)
    simp [setMeasurementPoint, hne, hset]
  · have hid : identifyPolylinePoint m idx = none := by
      simp only [identifyPolylinePoint, if_neg hne]
      exact identifySeg_out_of_range m.segments 1 0 idx (by omega)
    simp [removePolylinePoint, hid]

/-- C10 witness: index -1 on the concrete polyline is invalid and both
operations leave it unchanged, via C10_invalid_index_noop at that input. -/
theorem C10_witness :
    ((-1 : ℤ) < 0 ∨ ((getMeasurementPoints (.polyline pZig)).length : ℤ) ≤ -1) ∧
      setMeasurementPoint (.polyline pZig) (-1) ⟨7, 7⟩ = .polyline pZig ∧
      removePolylinePoint pZig (-1) = pZig :=
  ⟨Or.inl (by norm_num),
    (C10_invalid_index_noop pZig (-1) ⟨7, 7⟩ (Or.inl (by norm_num))).1,
    (C10_invalid_index_noop pZig (-1) ⟨7, 7⟩ (Or.inl (by norm_num))).2⟩

/-- C3 (amended): the write then flatten round trip holds for every valid
index of a polyline or rectangle and for the circle center index 0. The
circle radius handle index 1 is excluded: it stores only a distance (see the
counterexample). -/
theorem C3_roundtrip (m : Measurement) (idx : ℤ) (p : Point)
    (h0 : 0 ≤ idx) (h1 : idx < ((getMeasurementPoints m).length : ℤ))
    (hcirc : ∀ c r, m = .circle c r → idx = 0) :
    (getMeasurementPoints (setMeasurementPoint m idx p))[idx.toNat]? = some p := by
  cases m with
  | polyline pl =>
    by_cases hz : idx = 0
    · subst hz
      simp [setMeasurementPoint, getMeasurementPoints]
    · have hlen : (getMeasurementPoints (.polyline pl)).length
          = (segPoints pl.segments).length + 1 := by
        simp [getMeasurementPoints]
      rw [hlen] at h1
      push_cast at h1
      have h1n : idx.toNat - 1 < (segPoints pl.segments).length := by omega
      have hset := segPoints_setSegPoint pl.segments 1 idx p (by omega)
      have htn2 : (idx - 1).toNat = idx.toNat - 1 := by omega
      have htn : idx.toNat = (idx.toNat - 1) + 1 := by omega
      simp only [setMeasurementPoint, if_neg hz, getMeasurementPoints, hset, htn2]
      rw [htn, List.getElem?_cons_succ]
      exact List.getElem?_set_eq_of_lt p h1n
  | rectangle p0 p1 =>
    have hcase : idx = 0 ∨ idx = 1 := by
      simp [getMeasurementPoints] at h1
      omega
    rcases hcase with h | h <;> subst h <;>
      simp [setMeasurementPoint, getMeasurementPoints]
  | circle c r =>
    have hz := hcirc c r rfl
    subst hz
    simp [setMeasurementPoint, getMeasurementPoints]

/-- C3 counterexample: index 1 of a circle is a valid flattened index, yet
after writing the point (0,5) there the flattened list holds the horizontal
radius handle, whose y coordinate is 0, so the round trip fails. -/
theorem C3_circle_counterexample :
    (1 : ℤ) < ((getMeasurementPoints (.circle ⟨0, 0⟩ 50)).length : ℤ) ∧
      (getMeasurementPoints
          (setMeasurementPoint (.circle ⟨0, 0⟩ 50) 1 ⟨0, 5⟩))[(1 : ℤ).toNat]? ≠
        some ⟨0, 5⟩ := by
  constructor
  · simp [getMeasurementPoints]
  · simp [setMeasurementPoint, getMeasurementPoints, Point.mk.injEq]

/-- C3 witness: writing point (7,8) at the valid flattened index 2 of the
concrete polyline and flattening reads it back, via C3_roundtrip at that
input. -/
theorem C3_witness :
    (getMeasurementPoints
        (setMeasurementPoint (.polyline pZig) 2 ⟨7, 8⟩))[(2 : ℤ).toNat]? =
      some ⟨7, 8⟩ :=
  C3_roundtrip (.polyline pZig) 2 ⟨7, 8⟩ (by norm_num)
    (by simp [getMeasurementPoints, pZig, segPoints])
    (fun c r h => Measurement.noConfusion h)

/-- Squared distance unfolds to the radicand. -/
theorem dist_sq (a b : Point) :
    dist a b ^ 2 = (b.x - a.x) ^ 2 + (b.y - a.y) ^ 2 :=
  Real.sq_sqrt (by positivity)

/-- Unfolding lemma: below the determinant threshold circumscribedCircle
returns none. -/
theorem circumscribedCircle_eq_none (p1 p2 p3 : Point)
    (hlt : |circumDet p1 p2 p3| < 1 / 10 ^ 10) :
    circumscribedCircle p1 p2 p3 = none := by
  unfold circumscribedCircle
  simp only [if_pos hlt]

/-- Specification of a successful circumscribedCircle computation: the
determinant is nonzero and the returned center is equidistant from the three
points, the radius being that common distance. -/
theorem circumscribedCircle_spec (p1 p2 p3 : Point) (c : Circle)
    (h : circumscribedCircle p1 p2 p3 = some c) :
    circumDet p1 p2 p3 ≠ 0 ∧
      dist p1 ⟨c.cx, c.cy⟩ = c.r ∧ dist p2 ⟨c.cx, c.cy⟩ = c.r ∧
      dist p3 ⟨c.cx, c.cy⟩ = c.r := by
  have hD : ¬(|circumDet p1 p2 p3| < 1 / 10 ^ 10) := by
    intro hlt
    rw [circumscribedCircle_eq_none p1 p2 p3 hlt] at h
    exact Option.noConfusion h
  have hDne : circumDet p1 p2 p3 ≠ 0 := by
    intro h0
    exact hD (by rw [h0]; norm_num)
  have hDne2 : 2 * (p1.x * (p2.y - p3.y) + p2.x * (p3.y - p1.y) +
      p3.x * (p1.y - p2.y)) ≠ 0 := by
    simpa [circumDet] using hDne
  unfold circumscribedCircle circumDet at h
  rw [if_neg (by simpa [circumDet] using hD)] at h
  injection h with h
  subst h
  refine ⟨hDne, ?_, ?_, ?_⟩
  · simp only [dist]
    exact congrArg Real.sqrt (by ring)
  · simp only [dist]
    apply congrArg Real.sqrt
    field_simp
    ring
  · simp only [dist]
    apply congrArg Real.sqrt
    field_simp
    ring

/-- C4: circumscribedCircle returns none exactly when the determinant
magnitude is below the collinearity threshold; otherwise it returns a center
equidistant from the three points with radius equal to that common
distance. -/
theorem C4_circumscribedCircle (p1 p2 p3 : Point) :
    (|circumDet p1 p2 p3| < 1 / 10 ^ 10 → circumscribedCircle p1 p2 p3 = none) ∧
    (1 / 10 ^ 10 ≤ |circumDet p1 p2 p3| →
      ∃ c, circumscribedCircle p1 p2 p3 = some c ∧
        dist p1 ⟨c.cx, c.cy⟩ = c.r ∧ dist p2 ⟨c.cx, c.cy⟩ = c.r ∧
        dist p3 ⟨c.cx, c.cy⟩ = c.r) := by
  constructor
  · exact circumscribedCircle_eq_none p1 p2 p3
  · intro hge
    have hD : ¬(|circumDet p1 p2 p3| < 1 / 10 ^ 10) := not_lt.mpr hge
    cases hc : circumscribedCircle p1 p2 p3 with
    | none =>
      exfalso
      unfold circumscribedCircle at hc
      rw [if_neg hD] at hc
      exact Option.noConfusion hc
    | some c =>
      obtain ⟨-, h1, h2, h3⟩ := circumscribedCircle_spec p1 p2 p3 c hc
      exact ⟨c, rfl, h1, h2, h3⟩

/-- C4 witness: the three concrete points (0,0), (2,0) and (0,2) meet the
determinant bound and C4_circumscribedCircle applied there produces the
equidistant circle. -/
theorem C4_witness :
    (1 : ℝ) / 10 ^ 10 ≤ |circumDet ⟨0, 0⟩ ⟨2, 0⟩ ⟨0, 2⟩| ∧
      ∃ c, circumscribedCircle ⟨0, 0⟩ ⟨2, 0⟩ ⟨0, 2⟩ = some c ∧
        dist ⟨0, 0⟩ ⟨c.cx, c.cy⟩ = c.r ∧ dist ⟨2, 0⟩ ⟨c.cx, c.cy⟩ = c.r ∧
        dist ⟨0, 2⟩ ⟨c.cx, c.cy⟩ = c.r :=
  ⟨by norm_num [circumDet],
    (C4_circumscribedCircle ⟨0, 0⟩ ⟨2, 0⟩ ⟨0, 2⟩).2 (by norm_num [circumDet])⟩

/-- Helper: a square root is bounded by any nonnegative bound whose square
dominates the radicand. -/
theorem sqrt_le_of_sq_le {a b : ℝ} (hb : 0 ≤ b) (h : a ≤ b ^ 2) :
    Real.sqrt a ≤ b := by
  calc Real.sqrt a ≤ Real.sqrt (b ^ 2) := Real.sqrt_le_sqrt h
    _ = b := Real.sqrt_sq hb

/-- Unfolding lemma for finalizeArc on a polyline with a last segment. -/
theorem finalizeArc_eq (m : Polyline) (shiftHeld wasNewSegment : Bool)
    (lastSeg : Segment) (hlast : m.segments.getLast? = some lastSeg) :
    finalizeArc m shiftHeld wasNewSegment =
      if 2 ≤ m.segments.length ∧ shiftHeld = false ∧
          pointNear lastSeg.endp m.start CLOSE_SNAP_RADIUS then
        ({ m with
            segments := m.segments.dropLast ++ [{ lastSeg with endp := m.start }]
            closed := true },
          ⟨true, false⟩)
      else if wasNewSegment = true ∧ 2 ≤ m.segments.length ∧
          (match m.segments[m.segments.length - 2]? with
           | some prevSeg => dist prevSeg.endp lastSeg.endp < 2
           | none => False) then
        ({ m with segments := m.segments.dropLast }, ⟨false, true⟩)
      else (m, ⟨false, false⟩) := by
  unfold finalizeArc
  rw [hlast]

/-- C6 (amended): the release policy of finalizeArc, including the
two-segment guard the source applies to the close branch. With at least two
segments, shift not held and the last end within the close snap radius of
start, the end snaps exactly to start and the polyline closes, with priority
over everything else; otherwise, in new-segment mode with at least two
segments and the last end within 2 units of its logical start, the trailing
segment is removed; otherwise the polyline is left as drawn. -/
theorem C6_finalizeArc (m : Polyline) (shiftHeld wasNewSegment : Bool)
    (lastSeg : Segment) (hlast : m.segments.getLast? = some lastSeg) :
    (2 ≤ m.segments.length → shiftHeld = false →
      pointNear lastSeg.endp m.start CLOSE_SNAP_RADIUS →
      finalizeArc m shiftHeld wasNewSegment =
        ({ m with
            segments := m.segments.dropLast ++ [{ lastSeg with endp := m.start }]
            closed := true },
          ⟨true, false⟩)) ∧
    (¬(2 ≤ m.segments.length ∧ shiftHeld = false ∧
        pointNear lastSeg.endp m.start CLOSE_SNAP_RADIUS) →
      wasNewSegment = true → 2 ≤ m.segments.length →
      ∀ prevSeg, m.segments[m.segments.length - 2]? = some prevSeg →
        dist prevSeg.endp lastSeg.endp < 2 →
        finalizeArc m shiftHeld wasNewSegment =
          ({ m with segments := m.segments.dropLast }, ⟨false, true⟩)) ∧
    (¬(2 ≤ m.segments.length ∧ shiftHeld = false ∧
        pointNear lastSeg.endp m.start CLOSE_SNAP_RADIUS) →
      ¬(wasNewSegment = true ∧ 2 ≤ m.segments.length ∧
        ∃ prevSeg, m.segments[m.segments.length - 2]? = some prevSeg ∧
          dist prevSeg.endp lastSeg.endp < 2) →
      finalizeArc m shiftHeld wasNewSegment = (m, ⟨false, false⟩)) := by
  refine ⟨?_, ?_, ?_⟩
  · intro h1 h2 h3
    rw [finalizeArc_eq m shiftHeld wasNewSegment lastSeg hlast, if_pos ⟨h1, h2, h3⟩]
  · intro hnot hw h2 prevSeg hprev hdist
    have hmatch : (match m.segments[m.segments.length - 2]? with
        | some prevSeg => dist prevSeg.endp lastSeg.endp < 2
        | none => False) := by
      rw [hprev]
      exact hdist
    rw [finalizeArc_eq m shiftHeld wasNewSegment lastSeg hlast, if_neg hnot,
      if_pos ⟨hw, h2, hmatch⟩]
  · intro hnot hnot2
    have hnc : ¬(wasNewSegment = true ∧ 2 ≤ m.segments.length ∧
        (match m.segments[m.segments.length - 2]? with
         | some prevSeg => dist prevSeg.endp lastSeg.endp < 2
         | none => False)) := by
      rintro ⟨hw, h2, hmatch⟩
      apply hnot2
      refine ⟨hw, h2, ?_⟩
      cases hprev : m.segments[m.segments.length - 2]? with
      | none =>
        rw [hprev] at hmatch
        exact absurd hmatch not_false
      | some prevSeg =>
        rw [hprev] at hmatch
        exact ⟨prevSeg, rfl, hmatch⟩
    rw [finalizeArc_eq m shiftHeld wasNewSegment lastSeg hlast, if_neg hnot,
      if_neg hnc]

/-- C6 counterexample: a single segment ending at (5,0), within the close
snap radius of start (0,0), with shift not held: the claim as stated demands
a close, but finalizeArc leaves the polyline unchanged and reports no close,
because the close branch additionally requires at least two segments. -/
theorem C6_counterexample :
    pointNear (⟨5, 0⟩ : Point) (⟨0, 0⟩ : Point) CLOSE_SNAP_RADIUS ∧
      finalizeArc pSingleNear false false = (pSingleNear, ⟨false, false⟩) := by
  constructor
  · show dist ⟨5, 0⟩ ⟨0, 0⟩ ≤ CLOSE_SNAP_RADIUS
    unfold dist CLOSE_SNAP_RADIUS
    apply sqrt_le_of_sq_le <;> norm_num
  · have h2 : ¬(2 ≤ pSingleNear.segments.length) := by simp [pSingleNear]
    rw [finalizeArc_eq pSingleNear false false ⟨⟨5, 0⟩, none⟩ rfl,
      if_neg (fun hc => h2 hc.1), if_neg (fun hc => Bool.noConfusion hc.1)]

/-- C6 witness: three segments with the last ending at (5,5), within the
close snap radius of start, shift not held: C6_finalizeArc applied there
snaps the end to start, closes and reports the close. -/
theorem C6_witness :
    pointNear (⟨5, 5⟩ : Point) (⟨0, 0⟩ : Point) CLOSE_SNAP_RADIUS ∧
      finalizeArc pTriNear false false =
        ({ pTriNear with
            segments := pTriNear.segments.dropLast ++ [⟨⟨0, 0⟩, none⟩]
            closed := true },
          ⟨true, false⟩) := by
  have hnear : pointNear (⟨5, 5⟩ : Point) (⟨0, 0⟩ : Point) CLOSE_SNAP_RADIUS := by
    show dist ⟨5, 5⟩ ⟨0, 0⟩ ≤ CLOSE_SNAP_RADIUS
    unfold dist CLOSE_SNAP_RADIUS
    apply sqrt_le_of_sq_le <;> norm_num
  exact ⟨hnear,
    (C6_finalizeArc pTriNear false false ⟨⟨5, 5⟩, none⟩ rfl).1
      (by simp [pTriNear]) rfl hnear⟩

/-- Unfolding lemma for computeArcHoldAction: with the segment list split as
init plus a last segment, the result compares the distance from the logical
start of the last segment (the end of the previous segment, or start when
there is none) to the last end against POINT_HIT_RADIUS. -/
theorem computeArcHoldAction_eq (m : Polyline) (mousePos : Point)
    (init : List Segment) (lastSeg : Segment)
    (hsegs : m.segments = init ++ [lastSeg]) :
    computeArcHoldAction m mousePos =
      if POINT_HIT_RADIUS <
          dist (match init.getLast? with
            | some s => s.endp
            | none => m.start) lastSeg.endp then
        ⟨true, some mousePos⟩
      else ⟨false, none⟩ := by
  unfold computeArcHoldAction
  rw [hsegs, List.getLast?_concat]
  cases init with
  | nil => simp
  | cons i0 irest =>
    have hlen : ((i0 :: irest) ++ [lastSeg]).length = irest.length + 2 := by
      simp
    rw [hlen]
    rw [if_pos (by omega)]
    have hidx : irest.length + 2 - 2 = (i0 :: irest).length - 1 := by simp
    rw [hidx, List.getElem?_append_left (by simp),
      ← List.getLast?_eq_getElem?]

/-- C7: when the hold timer fires after a normal non-closing click on a
polyline with at least one segment, a distance from the logical start of the
last segment to its end exceeding POINT_HIT_RADIUS makes the timer append a
brand-new segment at the pointer and mark new-segment; otherwise nothing is
appended, the mark is untouched, and the existing last segment remains the
one later arc shaping bends in place. -/
theorem C7_holdTimer (m : Polyline) (mousePos : Point) (arcNew : Bool)
    (init : List Segment) (lastSeg : Segment)
    (hsegs : m.segments = init ++ [lastSeg]) :
    (POINT_HIT_RADIUS <
        dist (match init.getLast? with
          | some s => s.endp
          | none => m.start) lastSeg.endp →
      arcTimerFire m false mousePos arcNew =
        ⟨m.segments ++ [⟨mousePos, none⟩], true, true⟩) ∧
    (dist (match init.getLast? with
          | some s => s.endp
          | none => m.start) lastSeg.endp ≤ POINT_HIT_RADIUS →
      arcTimerFire m false mousePos arcNew = ⟨m.segments, true, arcNew⟩) := by
  have hact := computeArcHoldAction_eq m mousePos init lastSeg hsegs
  constructor
  · intro hfar
    unfold arcTimerFire
    rw [if_neg (by simp), hact, if_pos hfar]
    rfl
  · intro hnear
    unfold arcTimerFire
    rw [if_neg (by simp), hact, if_neg (not_lt.mpr hnear)]
    rfl

/-- C7 witness: a single segment from (0,0) to (100,0); the logical start is
the polyline start and lies more than POINT_HIT_RADIUS away, so the fired
timer appends a fresh segment at the pointer (60,60) and marks new-segment,
via C7_holdTimer at that input. -/
theorem C7_witness :
    POINT_HIT_RADIUS < dist (⟨0, 0⟩ : Point) (⟨100, 0⟩ : Point) ∧
      arcTimerFire pOneLong false ⟨60, 60⟩ false =
        ⟨[⟨⟨100, 0⟩, none⟩, ⟨⟨60, 60⟩, none⟩], true, true⟩ := by
  have hfar : POINT_HIT_RADIUS < dist (⟨0, 0⟩ : Point) (⟨100, 0⟩ : Point) := by
    unfold dist POINT_HIT_RADIUS
    rw [show ((100 : ℝ) - 0) ^ 2 + ((0 : ℝ) - 0) ^ 2 = 100 ^ 2 by norm_num,
      Real.sqrt_sq (by norm_num)]
    norm_num
  exact ⟨hfar,
    (C7_holdTimer pOneLong ⟨60, 60⟩ false [] ⟨⟨100, 0⟩, none⟩ rfl).1 hfar⟩

/-- Helper: normalizing a vector whose length passes the degeneracy guard
produces a vector of unit squared norm. -/
theorem unitize_cases (d : ℝ × ℝ) :
    (if Real.sqrt (d.1 * d.1 + d.2 * d.2) < 1 / 10 ^ 3 then (⟨1, 0⟩ : Point)
      else ⟨d.1 / Real.sqrt (d.1 * d.1 + d.2 * d.2),
        d.2 / Real.sqrt (d.1 * d.1 + d.2 * d.2)⟩).x ^ 2 +
      (if Real.sqrt (d.1 * d.1 + d.2 * d.2) < 1 / 10 ^ 3 then (⟨1, 0⟩ : Point)
        else ⟨d.1 / Real.sqrt (d.1 * d.1 + d.2 * d.2),
          d.2 / Real.sqrt (d.1 * d.1 + d.2 * d.2)⟩).y ^ 2 = 1 := by
  by_cases hlen : Real.sqrt (d.1 * d.1 + d.2 * d.2) < 1 / 10 ^ 3
  · rw [if_pos hlen]
    norm_num
  · rw [if_neg hlen]
    have hpos : 0 < Real.sqrt (d.1 * d.1 + d.2 * d.2) :=
      lt_of_lt_of_le (by norm_num) (not_lt.mp hlen)
    have hne : Real.sqrt (d.1 * d.1 + d.2 * d.2) ≠ 0 := ne_of_gt hpos
    have hsq : Real.sqrt (d.1 * d.1 + d.2 * d.2) ^ 2 = d.1 * d.1 + d.2 * d.2 :=
      Real.sq_sqrt (by nlinarith [mul_self_nonneg d.1, mul_self_nonneg d.2])
    field_simp
    linarith [hsq]

/-- C9: for every index up to the segment count (the range callers use),
getPrevTangent returns a vector of exactly unit squared norm: every branch
either returns the default direction (1,0), or divides by a length only after
the guard has ruled out lengths below 0.001. -/
theorem C9_getPrevTangent (m : Polyline) (segIdx : ℕ)
    (h : segIdx ≤ m.segments.length) :
    (getPrevTangent m segIdx).x ^ 2 + (getPrevTangent m segIdx).y ^ 2 = 1 := by
  unfold getPrevTangent
  by_cases h0 : segIdx = 0
  · rw [if_pos h0]
    norm_num
  · rw [if_neg h0]
    cases hget : m.segments[segIdx - 1]? with
    | none =>
      exfalso
      rw [List.getElem?_eq_getElem (by omega)] at hget
      exact Option.noConfusion hget
    | some prevSeg =>
      exact unitize_cases _

/-- C9 witness: index 1 of the one-segment polyline is in range, and
C9_getPrevTangent applied there gives the unit squared norm. -/
theorem C9_witness :
    (getPrevTangent pOneLong 1).x ^ 2 + (getPrevTangent pOneLong 1).y ^ 2 = 1 :=
  C9_getPrevTangent pOneLong 1 (by simp [pOneLong])

/-- Reduction of the x projection on a point literal. -/
theorem Point_mk_x (a b : ℝ) : (Point.mk a b).x = a := rfl

/-- Reduction of the y projection on a point literal. -/
theorem Point_mk_y (a b : ℝ) : (Point.mk a b).y = b := rfl

/-- Helper: a point at distance r and any angle from a center is at squared
distance r squared. -/
theorem bulge_point_dist_sq (kx ky r aMid : ℝ) :
    (kx + r * Real.cos aMid - kx) ^ 2 + (ky + r * Real.sin aMid - ky) ^ 2 =
      r ^ 2 := by
  have h := Real.sin_sq_add_cos_sq aMid
  linear_combination r ^ 2 * h

/-- The none cases of computeTangentArcBulge are exactly the two degeneracy
guards of the source. -/
theorem computeTangentArcBulge_none_iff (segStart segEnd tangentDir : Point) :
    computeTangentArcBulge segStart segEnd tangentDir = none ↔
      (segStart.x - segEnd.x) * (segStart.x - segEnd.x) +
          (segStart.y - segEnd.y) * (segStart.y - segEnd.y) < 1 / 10 ^ 6 ∨
        |2 * (-tangentDir.y * (segStart.x - segEnd.x) +
          tangentDir.x * (segStart.y - segEnd.y))| < 1 / 10 ^ 6 := by
  simp only [computeTangentArcBulge]
  by_cases hc1 : (segStart.x - segEnd.x) * (segStart.x - segEnd.x) +
      (segStart.y - segEnd.y) * (segStart.y - segEnd.y) < 1 / 10 ^ 6
  · rw [if_pos hc1]
    exact iff_of_true rfl (Or.inl hc1)
  · rw [if_neg hc1]
    by_cases hc2 : |2 * (-tangentDir.y * (segStart.x - segEnd.x) +
        tangentDir.x * (segStart.y - segEnd.y))| < 1 / 10 ^ 6
    · rw [if_pos hc2]
      exact iff_of_true rfl (Or.inr hc2)
    · rw [if_neg hc2]
      constructor
      · intro h
        exact Option.noConfusion h
      · intro h
        rcases h with h | h
        · exact absurd h hc1
        · exact absurd h hc2

/-- Specification of a successful computeTangentArcBulge computation with a
unit tangent: the arc center lies on the normal through segStart (the vector
from segStart to the center is perpendicular to the tangent) and is
equidistant from segStart, the bulge point and segEnd. -/
theorem computeTangentArcBulge_spec (segStart segEnd tangentDir b : Point)
    (hunit : tangentDir.x ^ 2 + tangentDir.y ^ 2 = 1)
    (hc1 : ¬((segStart.x - segEnd.x) * (segStart.x - segEnd.x) +
        (segStart.y - segEnd.y) * (segStart.y - segEnd.y) < 1 / 10 ^ 6))
    (hc2 : ¬(|2 * (-tangentDir.y * (segStart.x - segEnd.x) +
        tangentDir.x * (segStart.y - segEnd.y))| < 1 / 10 ^ 6))
    (h : computeTangentArcBulge segStart segEnd tangentDir = some b) :
    ∃ kx ky : ℝ,
      (kx - segStart.x) * tangentDir.x + (ky - segStart.y) * tangentDir.y = 0 ∧
      (segStart.x - kx) ^ 2 + (segStart.y - ky) ^ 2 =
        (b.x - kx) ^ 2 + (b.y - ky) ^ 2 ∧
      (segStart.x - kx) ^ 2 + (segStart.y - ky) ^ 2 =
        (segEnd.x - kx) ^ 2 + (segEnd.y - ky) ^ 2 := by
  simp only [computeTangentArcBulge] at h
  rw [if_neg hc1, if_neg hc2] at h
  injection h with h
  subst h
  set TE := -((segStart.x - segEnd.x) * (segStart.x - segEnd.x) +
      (segStart.y - segEnd.y) * (segStart.y - segEnd.y)) /
    (2 * (-tangentDir.y * (segStart.x - segEnd.x) +
      tangentDir.x * (segStart.y - segEnd.y))) with hTE
  refine ⟨segStart.x + TE * -tangentDir.y, segStart.y + TE * tangentDir.x,
    by ring, ?_, ?_⟩
  · have eq1 : (segStart.x - (segStart.x + TE * -tangentDir.y)) ^ 2 +
        (segStart.y - (segStart.y + TE * tangentDir.x)) ^ 2 = TE ^ 2 := by
      linear_combination TE ^ 2 * hunit
    rw [eq1]
    exact ((bulge_point_dist_sq _ _ _ _).trans (sq_abs TE)).symm
  · have hdenne : (2 * (-tangentDir.y * (segStart.x - segEnd.x) +
        tangentDir.x * (segStart.y - segEnd.y))) ≠ 0 := by
      intro h0
      apply hc2
      rw [h0]
      norm_num
    have hts : TE * (2 * (-tangentDir.y * (segStart.x - segEnd.x) +
        tangentDir.x * (segStart.y - segEnd.y))) =
        -((segStart.x - segEnd.x) * (segStart.x - segEnd.x) +
          (segStart.y - segEnd.y) * (segStart.y - segEnd.y)) := by
      rw [hTE]
      exact div_mul_cancel₀ _ hdenne
    linear_combination -hts

/-- Two points equidistant from three points with nonzero bisector
determinant coincide: the circumcenter is unique. -/
theorem circumcenter_unique (p1 p2 p3 : Point) (q1x q1y q2x q2y : ℝ)
    (hD : circumDet p1 p2 p3 ≠ 0)
    (h1 : (p1.x - q1x) ^ 2 + (p1.y - q1y) ^ 2 = (p2.x - q1x) ^ 2 + (p2.y - q1y) ^ 2)
    (h2 : (p1.x - q1x) ^ 2 + (p1.y - q1y) ^ 2 = (p3.x - q1x) ^ 2 + (p3.y - q1y) ^ 2)
    (h3 : (p1.x - q2x) ^ 2 + (p1.y - q2y) ^ 2 = (p2.x - q2x) ^ 2 + (p2.y - q2y) ^ 2)
    (h4 : (p1.x - q2x) ^ 2 + (p1.y - q2y) ^ 2 = (p3.x - q2x) ^ 2 + (p3.y - q2y) ^ 2) :
    q1x = q2x ∧ q1y = q2y := by
  have hcross : (p2.x - p1.x) * (p3.y - p1.y) - (p3.x - p1.x) * (p2.y - p1.y) ≠ 0 := by
    intro h0
    apply hD
    unfold circumDet
    linear_combination 2 * h0
  have e1 : (p2.x - p1.x) * (q1x - q2x) + (p2.y - p1.y) * (q1y - q2y) = 0 := by
    linear_combination (h1 - h3) / 2
  have e2 : (p3.x - p1.x) * (q1x - q2x) + (p3.y - p1.y) * (q1y - q2y) = 0 := by
    linear_combination (h2 - h4) / 2
  have ex : ((p2.x - p1.x) * (p3.y - p1.y) - (p3.x - p1.x) * (p2.y - p1.y)) *
      (q1x - q2x) = 0 := by
    linear_combination (p3.y - p1.y) * e1 - (p2.y - p1.y) * e2
  have ey : ((p2.x - p1.x) * (p3.y - p1.y) - (p3.x - p1.x) * (p2.y - p1.y)) *
      (q1y - q2y) = 0 := by
    linear_combination (p2.x - p1.x) * e2 - (p3.x - p1.x) * e1
  constructor
  · rcases mul_eq_zero.mp ex with h | h
    · exact absurd h hcross
    · linarith
  · rcases mul_eq_zero.mp ey with h | h
    · exact absurd h hcross
    · linarith

/-- C5: computeTangentArcBulge returns none exactly when the endpoints nearly
coincide (squared distance below the threshold) or segEnd lies on the tangent
line through segStart (denominator magnitude below the threshold); otherwise,
for a unit tangent direction, the returned bulge point is self-consistent:
the circle circumscribed about segStart, the bulge and segEnd has its center
on the normal through segStart, that is, the vector from segStart to the
center is perpendicular to the tangent direction. -/
theorem C5_computeTangentArcBulge (segStart segEnd tangentDir : Point) :
    (computeTangentArcBulge segStart segEnd tangentDir = none ↔
      (segStart.x - segEnd.x) * (segStart.x - segEnd.x) +
          (segStart.y - segEnd.y) * (segStart.y - segEnd.y) < 1 / 10 ^ 6 ∨
        |2 * (-tangentDir.y * (segStart.x - segEnd.x) +
          tangentDir.x * (segStart.y - segEnd.y))| < 1 / 10 ^ 6) ∧
    (tangentDir.x ^ 2 + tangentDir.y ^ 2 = 1 →
      ∀ b, computeTangentArcBulge segStart segEnd tangentDir = some b →
      ∀ c, circumscribedCircle segStart b segEnd = some c →
        (c.cx - segStart.x) * tangentDir.x +
          (c.cy - segStart.y) * tangentDir.y = 0) := by
  refine ⟨computeTangentArcBulge_none_iff segStart segEnd tangentDir, ?_⟩
  intro hunit b hb c hc
  have hc1 : ¬((segStart.x - segEnd.x) * (segStart.x - segEnd.x) +
      (segStart.y - segEnd.y) * (segStart.y - segEnd.y) < 1 / 10 ^ 6) := by
    intro hcond
    rw [(computeTangentArcBulge_none_iff segStart segEnd tangentDir).mpr
      (Or.inl hcond)] at hb
    exact Option.noConfusion hb
  have hc2 : ¬(|2 * (-tangentDir.y * (segStart.x - segEnd.x) +
      tangentDir.x * (segStart.y - segEnd.y))| < 1 / 10 ^ 6) := by
    intro hcond
    rw [(computeTangentArcBulge_none_iff segStart segEnd tangentDir).mpr
      (Or.inr hcond)] at hb
    exact Option.noConfusion hb
  obtain ⟨kx, ky, hperp, hsb, hse⟩ :=
    computeTangentArcBulge_spec segStart segEnd tangentDir b hunit hc1 hc2 hb
  obtain ⟨hDne, hd1, hd2, hd3⟩ := circumscribedCircle_spec segStart b segEnd c hc
  have a1 := dist_sq segStart ⟨c.cx, c.cy⟩
  have a2 := dist_sq b ⟨c.cx, c.cy⟩
  have a3 := dist_sq segEnd ⟨c.cx, c.cy⟩
  rw [hd1] at a1
  rw [hd2] at a2
  rw [hd3] at a3
  simp only [Point_mk_x, Point_mk_y] at a1 a2 a3
  have hq1 : (segStart.x - c.cx) ^ 2 + (segStart.y - c.cy) ^ 2 =
      (b.x - c.cx) ^ 2 + (b.y - c.cy) ^ 2 := by
    linear_combination a2 - a1
  have hq2 : (segStart.x - c.cx) ^ 2 + (segStart.y - c.cy) ^ 2 =
      (segEnd.x - c.cx) ^ 2 + (segEnd.y - c.cy) ^ 2 := by
    linear_combination a3 - a1
  obtain ⟨hx, hy⟩ := circumcenter_unique segStart b segEnd kx ky c.cx c.cy
    hDne hsb hse hq1 hq2
  rw [← hx, ← hy]
  exact hperp

/-- Evaluation lemma for computeTangentArcBulge on the positive-rotation
branch, parameterized by the intermediate values the source computes. -/
theorem computeTangentArcBulge_eval (segStart segEnd tangentDir : Point)
    (hc1 : ¬((segStart.x - segEnd.x) * (segStart.x - segEnd.x) +
        (segStart.y - segEnd.y) * (segStart.y - segEnd.y) < 1 / 10 ^ 6))
    (hc2 : ¬(|2 * (-tangentDir.y * (segStart.x - segEnd.x) +
        tangentDir.x * (segStart.y - segEnd.y))| < 1 / 10 ^ 6))
    (t cx cy a1 a3 sw : ℝ)
    (ht : t = -((segStart.x - segEnd.x) * (segStart.x - segEnd.x) +
        (segStart.y - segEnd.y) * (segStart.y - segEnd.y)) /
      (2 * (-tangentDir.y * (segStart.x - segEnd.x) +
        tangentDir.x * (segStart.y - segEnd.y))))
    (hcx : cx = segStart.x + t * -tangentDir.y)
    (hcy : cy = segStart.y + t * tangentDir.x)
    (hpos : 0 < t)
    (ha1 : atan2 (segStart.y - cy) (segStart.x - cx) = a1)
    (ha3 : atan2 (segEnd.y - cy) (segEnd.x - cx) = a3)
    (hsw : normalizeAngle (a3 - a1) = sw)
    (hswne : sw ≠ 0) :
    computeTangentArcBulge segStart segEnd tangentDir =
      some ⟨cx + |t| * Real.cos (a1 + sw / 2),
        cy + |t| * Real.sin (a1 + sw / 2)⟩ := by
  simp only [computeTangentArcBulge]
  rw [if_neg hc1, if_neg hc2, ← ht, ← hcx, ← hcy, ha1, ha3, if_pos hpos, hsw,
    if_neg hswne]

/-- Concrete remainder: pi modulo two pi is pi. -/
theorem jsMod_pi : jsMod Real.pi (2 * Real.pi) = Real.pi := by
  unfold jsMod truncR
  have hdiv : Real.pi / (2 * Real.pi) = 1 / 2 := by
    rw [div_eq_iff (by positivity)]
    ring
  rw [hdiv, if_pos (by norm_num : (0 : ℝ) ≤ 1 / 2)]
  have hfl : ⌊(1 / 2 : ℝ)⌋ = 0 := by
    apply Int.floor_eq_iff.mpr
    norm_num
  rw [hfl]
  norm_num

/-- Concrete normalization: pi is already in the principal range. -/
theorem normalizeAngle_pi : normalizeAngle Real.pi = Real.pi := by
  unfold normalizeAngle
  rw [jsMod_pi, if_neg (not_lt.mpr (le_of_lt Real.pi_pos))]

/-- Concrete run of the tangent bulge solver: from (0,0) toward (0,10) with
unit tangent (1,0), the source computes center (0,5), radius 5 and bulge
point (5,5). -/
theorem tArc_eval_concrete :
    computeTangentArcBulge ⟨0, 0⟩ ⟨0, 10⟩ ⟨1, 0⟩ = some ⟨5, 5⟩ := by
  have ha1 : atan2 ((⟨0, 0⟩ : Point).y - 5) ((⟨0, 0⟩ : Point).x - 0) =
      -(Real.pi / 2) := by
    unfold atan2
    rw [Complex.arg_eq_neg_pi_div_two_iff]
    constructor <;> norm_num [Point_mk_x, Point_mk_y]
  have ha3 : atan2 ((⟨0, 10⟩ : Point).y - 5) ((⟨0, 10⟩ : Point).x - 0) =
      Real.pi / 2 := by
    unfold atan2
    rw [Complex.arg_eq_pi_div_two_iff]
    constructor <;> norm_num [Point_mk_x, Point_mk_y]
  have hsw : normalizeAngle (Real.pi / 2 - -(Real.pi / 2)) = Real.pi := by
    rw [show Real.pi / 2 - -(Real.pi / 2) = Real.pi by ring]
    exact normalizeAngle_pi
  have h := computeTangentArcBulge_eval ⟨0, 0⟩ ⟨0, 10⟩ ⟨1, 0⟩
    (by norm_num [Point_mk_x, Point_mk_y])
    (by norm_num [Point_mk_x, Point_mk_y])
    5 0 5 (-(Real.pi / 2)) (Real.pi / 2) Real.pi
    (by norm_num [Point_mk_x, Point_mk_y])
    (by norm_num [Point_mk_x, Point_mk_y])
    (by norm_num [Point_mk_x, Point_mk_y])
    (by norm_num)
    ha1 ha3 hsw Real.pi_ne_zero
  rw [h, show -(Real.pi / 2) + Real.pi / 2 = 0 by ring, Real.cos_zero,
    Real.sin_zero]
  norm_num

/-- Concrete circumscribed circle through (0,0), (5,5) and (0,10): center
(0,5). -/
theorem circ_eval_concrete :
    circumscribedCircle ⟨0, 0⟩ ⟨5, 5⟩ ⟨0, 10⟩ = some ⟨0, 5, Real.sqrt 25⟩ := by
  have hD : ¬(|circumDet ⟨0, 0⟩ ⟨5, 5⟩ ⟨0, 10⟩| < 1 / 10 ^ 10) := by
    norm_num [circumDet, Point_mk_x, Point_mk_y]
  unfold circumscribedCircle
  rw [if_neg hD]
  norm_num [circumDet, Point_mk_x, Point_mk_y]

/-- C5 witness: at segStart (0,0), segEnd (0,10) and unit tangent (1,0) the
solver returns the bulge point (5,5); the circle circumscribed about (0,0),
(5,5) and (0,10) has center (0,5); C5_computeTangentArcBulge applied at that
input yields the perpendicularity of the start-to-center vector and the
tangent. -/
theorem C5_witness :
    computeTangentArcBulge ⟨0, 0⟩ ⟨0, 10⟩ ⟨1, 0⟩ = some ⟨5, 5⟩ ∧
      circumscribedCircle ⟨0, 0⟩ ⟨5, 5⟩ ⟨0, 10⟩ = some ⟨0, 5, Real.sqrt 25⟩ ∧
      ((⟨0, 5, Real.sqrt 25⟩ : Circle).cx - (⟨0, 0⟩ : Point).x) *
          (⟨1, 0⟩ : Point).x +
        ((⟨0, 5, Real.sqrt 25⟩ : Circle).cy - (⟨0, 0⟩ : Point).y) *
          (⟨1, 0⟩ : Point).y = 0 :=
  ⟨tArc_eval_concrete, circ_eval_concrete,
    (C5_computeTangentArcBulge ⟨0, 0⟩ ⟨0, 10⟩ ⟨1, 0⟩).2
      (by norm_num [Point_mk_x, Point_mk_y]) ⟨5, 5⟩ tArc_eval_concrete
      ⟨0, 5, Real.sqrt 25⟩ circ_eval_concrete⟩

end Calipr
